import Mathlib

/-!
Verification development for the price-tracker add-on
(`website_price_tracker/app/app.py`, with `jura_s8_price_addon/app/app.py`
a near-duplicate).  The numeric domain of the Python code (floats holding
decimal prices) is embedded as `Rat`; every definition below is a shallow
embedding of the correspondingly named Python function.
-/

namespace PriceTracker

/-! ### Character and string helpers (models of the Python builtins used) -/

/-- Model of the ASCII decimal-digit test used for `\d` and for the digits
accepted by `float()` / `int()` (the source only ever feeds ASCII content). -/
def isDigitCh (c : Char) : Bool := '0' ≤ c ∧ c ≤ '9'

/-- Model of Python whitespace (`str.strip`, `float()` stripping, regex `\s`). -/
def isWsCh (c : Char) : Bool := c.isWhitespace

/-- Model of a regex word character (`\w`, ASCII part) for the `\b` boundary. -/
def isWordCh (c : Char) : Bool := c.isAlphanum || c = '_'

/-- Model of `str.strip()`: drop whitespace from both ends. -/
def pyStrip (l : List Char) : List Char :=
  ((l.dropWhile isWsCh).reverse.dropWhile isWsCh).reverse

/-- Model of `str.replace(" ", "")`: remove every space character. -/
def dropSpaces (l : List Char) : List Char := l.filter (fun c => c ≠ ' ')

/-- Numeric value of a list of ASCII digits (model of `int` on digit strings). -/
def digitsVal (l : List Char) : Nat :=
  l.foldl (fun a c => 10 * a + (c.toNat - '0'.toNat)) 0

/-- Maximal prefix of ASCII digits together with the remainder. -/
def splitDigits (l : List Char) : List Char × List Char :=
  match l with
  | [] => ([], [])
  | c :: rest =>
    if isDigitCh c then
      let (d, r) := splitDigits rest
      (c :: d, r)
    else ([], l)

/-! ### Model of Python `float()` on finite decimal literals

`float()` strips whitespace, then accepts `[sign] (digits [. digits] | . digits)
[exponent]` and denotes the exact decimal value (embedded into `Rat`).  The
special forms `inf` / `nan` / underscore separators, which never arise from
this program's well-formed inputs, are rejected (`none`).  The parse is staged
through an integer mantissa/scale pair so that concrete runs reduce inside the
kernel; `decValue` turns the pair into the rational value. -/

/-- Value of a mantissa/scale pair: `m / 10^k`. -/
def decValue (m : Int) (k : Nat) : Rat := (m : Rat) / (10 : Rat) ^ k

/-- Parse the optional exponent suffix onto a mantissa/scale pair and finish:
the whole rest must be consumed for `float()` to succeed. -/
def parseExpSym (m : Int) (k : Nat) (cs : List Char) : Option (Int × Nat) :=
  match cs with
  | [] => some (m, k)
  | e :: r =>
    if e = 'e' ∨ e = 'E' then
      let (eneg, r1) : Bool × List Char :=
        match r with
        | '-' :: r' => (true, r')
        | '+' :: r' => (false, r')
        | _ => (false, r)
      let (ed, r2) := splitDigits r1
      if ed.isEmpty ∨ ¬ r2.isEmpty then none
      else if eneg then some (m, k + digitsVal ed)
      else some (m * (10 : Int) ^ digitsVal ed, k)
    else none

/-- Parse the signed decimal body of a `float()` literal into mantissa/scale. -/
def parseFloatSym (cs : List Char) : Option (Int × Nat) :=
  let (sgn, cs1) : Int × List Char :=
    match cs with
    | '-' :: r => (-1, r)
    | '+' :: r => (1, r)
    | _ => (1, cs)
  let (ip, cs2) := splitDigits cs1
  match cs2 with
  | '.' :: r =>
    let (fp, cs3) := splitDigits r
    if ip.isEmpty ∧ fp.isEmpty then none
    else parseExpSym (sgn * ((digitsVal ip : Int) * (10 : Int) ^ fp.length + digitsVal fp))
      fp.length cs3
  | _ =>
    if ip.isEmpty then none
    else parseExpSym (sgn * (digitsVal ip : Int)) 0 cs2

/-- Model of Python `float(s)` on the finite decimal grammar. -/
def pyFloat (s : List Char) : Option Rat :=
  (parseFloatSym (pyStrip s)).map (fun p => decValue p.1 p.2)

/-! ### The separator-normalization cascade shared by `try_float` and
`normalize_euro` (both files implement the identical algorithm). -/

/-- The candidate-string construction of `try_float` / `normalize_euro`:
`strip`, drop spaces, then the dot/comma cascade of the source. -/
def euroCandidate (l : List Char) : List Char :=
  let s := dropSpaces (pyStrip l)
  if ',' ∈ s ∧ '.' ∈ s then
    if s.indexOf '.' < s.indexOf ',' then
      (s.filter (fun c => c ≠ '.')).map (fun c => if c = ',' then '.' else c)
    else
      s.filter (fun c => c ≠ ',')
  else
    (s.filter (fun c => c ≠ '.')).map (fun c => if c = ',' then '.' else c)

/-- Embedding of `normalize_euro(num)` (app.py:563): separator cascade, then
`float`, with any parse failure mapped to `None`. -/
def normalize_euro (num : String) : Option Rat := pyFloat (euroCandidate num.toList)

/-! ### JSON values (the parsed structured-data blocks) -/

/-- Parsed JSON value as produced by `json.loads`.  Python keeps JSON
integers and JSON decimals apart (`int` vs `float`); the decimal
`num m e` denotes `m / 10^e`. -/
inductive JVal where
  | null : JVal
  | bool (b : Bool) : JVal
  | int (n : Int) : JVal
  | num (m : Int) (e : Nat) : JVal
  | str (s : String) : JVal
  | arr (items : List JVal) : JVal
  | obj (fields : List (String × JVal)) : JVal

/-- Rational value of a JSON decimal. -/
def JVal.numVal (m : Int) (e : Nat) : Rat := (m : Rat) / (10 : Rat) ^ e

/-- Model of Python truthiness on JSON-derived values. -/
def jTruthy : JVal → Bool
  | JVal.null => false
  | JVal.bool b => b
  | JVal.int n => n ≠ 0
  | JVal.num m _ => m ≠ 0
  | JVal.str s => s ≠ ""
  | JVal.arr items => ¬ items.isEmpty
  | JVal.obj fields => ¬ fields.isEmpty

/-- Model of `dict.get(k)` with default `None`; `json.loads` keeps the last
occurrence of a duplicated key, hence the reversed lookup. -/
def jGetD (fields : List (String × JVal)) (k : String) : JVal :=
  match fields.reverse.find? (fun p => p.1 = k) with
  | some p => p.2
  | none => JVal.null

/-- Model of `k in dict`. -/
def jHas (fields : List (String × JVal)) (k : String) : Bool :=
  fields.any (fun p => p.1 = k)

/-- Model of `dict.get(k, default)`. -/
def jGetDefault (fields : List (String × JVal)) (k : String) (d : JVal) : JVal :=
  if jHas fields k then jGetD fields k else d

/-- Render the digits of `m / 10^e` the way `repr` prints a decimal float:
a decimal point is always present and trailing fractional zeros collapse
to a single `0` (`str(5.0) = "5.0"`, `str(129.99) = "129.99"`). -/
def pyFloatRepr (m : Int) (e : Nat) : String :=
  let sign := if m < 0 then "-" else ""
  let ds := (toString m.natAbs).toList
  let ds := List.replicate (e + 1 - ds.length) '0' ++ ds
  let ip := ds.take (ds.length - e)
  let fp := (ds.drop (ds.length - e)).reverse.dropWhile (fun c => c = '0') |>.reverse
  let fp := if fp.isEmpty then ['0'] else fp
  sign ++ String.mk ip ++ "." ++ String.mk fp

/-- Model of `str(v)` on the values `try_float` receives.  Containers render
to bracketed text that can never parse as a number, which is all the
source does with them. -/
def pyStr : JVal → String
  | JVal.null => "None"
  | JVal.bool b => if b then "True" else "False"
  | JVal.int n => toString n
  | JVal.num m e => pyFloatRepr m e
  | JVal.str s => s
  | JVal.arr _ => "[...]"
  | JVal.obj _ => "\x7b...\x7d"

/-- Embedding of `try_float(v)` (app.py:491): `None` stays `None`; anything
else is stringified and pushed through the same separator cascade as
`normalize_euro`. -/
def try_float (v : JVal) : Option Rat :=
  match v with
  | JVal.null => none
  | _ => pyFloat (euroCandidate (pyStr v).toList)

/-- `try_float` lifted to an absent-or-present option value
(`options.get(...)` returns `None` when the key is missing). -/
def try_float_opt : Option JVal → Option Rat
  | none => none
  | some v => try_float v

/-- Model of `str.isdigit()` restricted to ASCII digits (the non-decimal
Unicode digit classes never reach this code path with well-formed input). -/
def pyIsDigit (s : String) : Bool := ¬ s.toList.isEmpty ∧ s.toList.all isDigitCh

/-- Model of `isinstance(val, int)`; Python `bool` is a subclass of `int`. -/
def isPyInt : JVal → Bool
  | JVal.int _ => true
  | JVal.bool _ => true
  | _ => false

/-- Embedding of the inner `_as_eur(val)` closure of `extract_price`
(app.py:521): normal parse, digit-string fallback, and the cents
heuristic for large integers. -/
def as_eur (val : JVal) : Option Rat :=
  match try_float val with
  | none =>
    match val with
    | JVal.str s =>
      if pyIsDigit s then
        let iv := digitsVal s.toList
        if iv ≥ 10000 then some ((iv : Rat) / 100) else none
      else none
    | _ => none
  | some parsed =>
    if parsed ≥ 10000 ∧ isPyInt val then some (parsed / 100)
    else some parsed

/-! ### The price pattern

`PRICE_RE = (?<!\d)(?:€\s*|\bEUR\s*)(\d{1,4}(?:[.,]\d{3})*(?:[.,]\d{2})?)`
is modelled as an explicit scanner.  The pattern is deterministic (the starred
and optional groups can always match empty, so the greedy first attempt never
backtracks); the scanner reproduces leftmost matching, the `(?<!\d)` / `\b`
look-arounds, and `finditer`'s continuation after each match. -/

/-- A separator character of the digit-group pattern, `[.,]`. -/
def isSepCh (c : Char) : Bool := c = '.' ∨ c = ','

/-- Greedy `(?:[.,]\d{3})*`: consume separator-plus-three-digit groups,
returning the consumed characters and the remainder. -/
def starGroups (cs : List Char) : List Char × List Char :=
  match cs with
  | s :: a :: b :: c :: rest =>
    if isSepCh s ∧ isDigitCh a ∧ isDigitCh b ∧ isDigitCh c then
      let (x, r) := starGroups rest
      (s :: a :: b :: c :: x, r)
    else ([], cs)
  | _ => ([], cs)

/-- Optional `(?:[.,]\d{2})?`. -/
def optCents (cs : List Char) : List Char × List Char :=
  match cs with
  | s :: a :: b :: rest =>
    if isSepCh s ∧ isDigitCh a ∧ isDigitCh b then (s :: a :: b :: [], rest)
    else ([], cs)
  | _ => ([], cs)

/-- The capture group `\d{1,4}(?:[.,]\d{3})*(?:[.,]\d{2})?`: one to four
digits (greedy), then grouped thousands, then an optional two-digit
fraction.  Returns the captured characters and the remainder. -/
def matchAmount (cs : List Char) : Option (List Char × List Char) :=
  let (ds, r) := splitDigits cs
  if ds.isEmpty then none
  else
    let d1 := ds.take 4
    let r1 := ds.drop 4 ++ r
    let (g, r2) := starGroups r1
    let (f, r3) := optCents r2
    some (d1 ++ g ++ f, r3)

/-- The currency marker `(?<!\d)(?:€\s*|\bEUR\s*)` at the current position;
`prev` is the character immediately before it (for the look-behinds).
Returns the remainder after the marker and its trailing whitespace. -/
def matchCurrencyMark (prev : Option Char) (cs : List Char) : Option (List Char) :=
  if (match prev with | some c => isDigitCh c | none => false : Bool) then none
  else
    match cs with
    | '€' :: rest => some (rest.dropWhile isWsCh)
    | c1 :: c2 :: c3 :: rest =>
      if (c1.toLower = 'e' ∧ c2.toLower = 'u' ∧ c3.toLower = 'r' : Bool)
          && (match prev with | some c => ¬ isWordCh c | none => true : Bool) then
        some (rest.dropWhile isWsCh)
      else none
    | _ => none

/-- A full `PRICE_RE` match attempt at the current position: currency marker
then amount group.  Returns the captured group and the remainder. -/
def matchPriceAt (prev : Option Char) (cs : List Char) : Option (List Char × List Char) :=
  match matchCurrencyMark prev cs with
  | none => none
  | some afterMark => matchAmount afterMark

/-- Scan for every non-overlapping `PRICE_RE` match (the `finditer` loop),
returning the captured groups in order; `fuel` bounds the scan (the string
length suffices since every step consumes at least one character). -/
def priceScanAux : Nat → Option Char → List Char → List String
  | 0, _, _ => []
  | _, _, [] => []
  | fuel + 1, prev, c :: cs =>
    match matchPriceAt prev (c :: cs) with
    | some (g, rest) => String.mk g :: priceScanAux fuel g.getLast? rest
    | none => priceScanAux fuel (some c) cs

/-- All `PRICE_RE` captures in a string (`PRICE_RE.finditer`). -/
def priceFindAll (s : String) : List String :=
  priceScanAux (s.toList.length + 1) none s.toList

/-- The first `PRICE_RE` capture, if any (`PRICE_RE.search`). -/
def priceSearch (s : String) : Option String := (priceFindAll s).head?

/-! ### The extractor

`extract_price(html)` walks the parsed document.  The HTML/JSON parsing
itself is the external collaborator (BeautifulSoup / `json.loads`); its
output is embedded as `Content`: the parse result of each
`application/ld+json` / `application/json` script block (`none` for a JSON
parse failure), the raw string obtained for each `META_HINTS` selector that
finds an element (`none` when `select_one` finds nothing), and the rendered
page text. -/

/-- The selector strings of `META_HINTS`, in source order (the associated
attribute choice is part of how the raw string is obtained and is absorbed
into `Content.selectorHits`). -/
def META_HINTS : List String :=
  [ "meta[property=\"product:price:amount\"]"
  , "meta[name=\"twitter:data1\"]"
  , "meta[itemprop=\"price\"]"
  , "span[itemprop=\"price\"]"
  , "div[data-price]"
  , "span[data-price]"
  , "div[class*=\"price\"]"
  , "span[class*=\"price\"]" ]

/-- The parsed view of one fetched page, as `extract_price` consumes it. -/
structure Content where
  scripts : List (Option JVal)
  selectorHits : List (Option String)
  text : String

/-- Output of the extractor: price, currency (a raw JSON value, defaulted to
the string "EUR"), and the provenance/method tag. -/
structure ExtractionResult where
  price : Option Rat
  currency : JVal
  method : String

/-- The `offers` sub-object probe of one structured-data object
(app.py:533-538): `isinstance(offers, dict)`, the falsy price/lowPrice
chain, the falsy currency default, then `_as_eur`. -/
def offersProbe (offers : JVal) : Option (Rat × JVal × String) :=
  match offers with
  | JVal.obj o =>
    let p := jGetD o "price"
    let raw := if jTruthy p then p else jGetD o "lowPrice"
    let c := jGetD o "priceCurrency"
    let currency := if jTruthy c then c else JVal.str "EUR"
    (match as_eur raw with
     | some v => some (v, currency, "jsonld")
     | none => none)
  | _ => none

/-- The root-level `price` probe of one structured-data object
(app.py:539-543). -/
def rootProbe (fields : List (String × JVal)) : Option (Rat × JVal × String) :=
  if jHas fields "price" then
    match as_eur (jGetD fields "price") with
    | some v => some (v, jGetDefault fields "priceCurrency" (JVal.str "EUR"), "jsonld-root")
    | none => none
  else none

/-- One structured-data object: the `offers` sub-object probe followed by the
root-level `price` probe (app.py:519-543). -/
def objCheck (fields : List (String × JVal)) : Option (Rat × JVal × String) :=
  match offersProbe (jGetD fields "offers") with
  | some r => some r
  | none => rootProbe fields

/-- `data if isinstance(data, list) else [data]`. -/
def jItems : JVal → List JVal
  | JVal.arr items => items
  | v => [v]

/-- The inner `for obj in items` loop: non-dict items are skipped. -/
def itemsScan : List JVal → Option (Rat × JVal × String)
  | [] => none
  | JVal.obj fields :: rest =>
    match objCheck fields with
    | some r => some r
    | none => itemsScan rest
  | _ :: rest => itemsScan rest

/-- The outer loop over script blocks: JSON parse failures are skipped. -/
def scriptsScan : List (Option JVal) → Option (Rat × JVal × String)
  | [] => none
  | none :: rest => scriptsScan rest
  | some data :: rest =>
    match itemsScan (jItems data) with
    | some r => some r
    | none => scriptsScan rest

/-- The `META_HINTS` loop (app.py:545-552): the first element whose raw value
contains a `PRICE_RE` match decides, returning the *normalized* value (which
may itself be `none`) and the `selector:<which>` tag. -/
def selectorScan : List String → List (Option String) → Option (Option Rat × String)
  | [], _ => none
  | sel :: sels, hits =>
    match hits.head? with
    | some (some rawValue) =>
      (match priceSearch (String.mk (pyStrip rawValue.toList)) with
       | some g => some (normalize_euro g, "selector:" ++ sel)
       | none => selectorScan sels hits.tail)
    | _ => selectorScan sels hits.tail

/-- Ascending sort of the fallback candidates (model of `candidates.sort()`). -/
def sortRats (l : List Rat) : List Rat := l.insertionSort (· ≤ ·)

/-- The element the text fallback publishes: position `len(candidates)//2`
of the sorted candidate list (`candidates[len(candidates)//2]`). -/
def fallbackMedian (l : List Rat) : Rat := (sortRats l).getD (l.length / 2) 0

/-- Embedding of `extract_price(html)` (app.py:508-560): structured-data
blocks, then the selector list, then the text fallback taking the middle
element of the sorted candidate list, then the `none` result. -/
def extract_price (c : Content) : ExtractionResult :=
  match scriptsScan c.scripts with
  | some (v, currency, m) => ⟨some v, currency, m⟩
  | none =>
    match selectorScan META_HINTS c.selectorHits with
    | some (p, m) => ⟨p, JVal.str "EUR", m⟩
    | none =>
      let candidates := (priceFindAll c.text).filterMap normalize_euro
      if candidates.isEmpty then ⟨none, JVal.str "EUR", "none"⟩
      else ⟨some (fallbackMedian candidates), JVal.str "EUR", "text-fallback"⟩

/-! ### Configuration coercion (`App.__init__`, app.py:82-93)

`min_price`/`max_price`/`price_divisor` go through `try_float(...) or default`:
Python's falsy-`or` replaces both a failed parse (`None`) and a parsed zero
by the default. -/

/-- Model of `try_float(x) or default` (`0.0` is falsy). -/
def orFalsy (x : Option Rat) (d : Rat) : Rat :=
  match x with
  | some q => if q = 0 then d else q
  | none => d

/-- `self.min_price = try_float(options.get("min_price")) or 0.0`. -/
def effectiveMinPrice (raw : Option JVal) : Rat := orFalsy (try_float_opt raw) 0

/-- `self.max_price = try_float(options.get("max_price")) or 1e9`. -/
def effectiveMaxPrice (raw : Option JVal) : Rat := orFalsy (try_float_opt raw) ((10 : Rat) ^ 9)

/-- `try_float(s.get("price_divisor")) or None`: the stored per-site divisor. -/
def siteDivisor (raw : Option JVal) : Option Rat :=
  match try_float_opt raw with
  | some q => if q = 0 then none else some q
  | none => none

/-! ### Plausibility correction (`App.scrape_once`, app.py:256-297) -/

/-- Decimal text of a rational whose denominator divides a power of ten,
used for the `f"+div{divisor:g}"` tag: integers print bare, other decimals
with a point and no trailing zeros (the `%g` format on the decimal divisors
this program receives). -/
def fmtG (q : Rat) : String :=
  if q.den = 1 then toString q.num
  else
    match (List.range 30).find? (fun k => q.den ∣ 10 ^ k) with
    | some k =>
      let m := q.num * ((10 : Int) ^ k / (q.den : Int))
      let sign := if m < 0 then "-" else ""
      let ds := (toString m.natAbs).toList
      let ds := List.replicate (k + 1 - ds.length) '0' ++ ds
      let ip := ds.take (ds.length - k)
      let fp := (ds.drop (ds.length - k)).reverse.dropWhile (fun c => c = '0') |>.reverse
      if fp.isEmpty then sign ++ String.mk ip
      else sign ++ String.mk ip ++ "." ++ String.mk fp
    | none => toString q

/-- Outcome of the per-target correction step: either the price (possibly
repaired) goes on to be published with its method tag, or the target is
rejected via `publish_error(site, reason, extra)`. -/
inductive CorrectOutcome where
  | accept (price : Rat) (method : String) : CorrectOutcome
  | reject (reason : String) (raw_price : Rat) (min max : Rat) (method : String) : CorrectOutcome

/-- Correction step result plus whether the non-positive-divisor warning was
logged on the way. -/
structure CorrectionRun where
  outcome : CorrectOutcome
  configWarned : Bool

/-- Embedding of the divisor application and plausibility correction of
`scrape_once` (app.py:256-297): a truthy divisor is applied (or warned about
when not positive), then the bounds check with the div-100 / div-10 repair
chain, then acceptance or the `price_out_of_range` rejection carrying the
price and both bounds. -/
def correct_price (min_price max_price : Rat) (price_divisor : Option Rat)
    (price : Rat) (method : String) : CorrectionRun :=
  let (p1, m1, warned) : Rat × String × Bool :=
    match price_divisor with
    | some d =>
      if d ≠ 0 then
        if d > 0 then (price / d, method ++ "+div" ++ fmtG d, false)
        else (price, method, true)
      else (price, method, false)
    | none => (price, method, false)
  if min_price ≤ p1 ∧ p1 ≤ max_price then
    ⟨CorrectOutcome.accept p1 m1, warned⟩
  else if min_price ≤ p1 / 100 ∧ p1 / 100 ≤ max_price then
    ⟨CorrectOutcome.accept (p1 / 100) (m1 ++ "+heuristic_div100"), warned⟩
  else if min_price ≤ p1 / 10 ∧ p1 / 10 ≤ max_price then
    ⟨CorrectOutcome.accept (p1 / 10) (m1 ++ "+heuristic_div10"), warned⟩
  else
    ⟨CorrectOutcome.reject "price_out_of_range" p1 min_price max_price m1, warned⟩

/-! ### Fetch and the per-target cycle (`App.scrape_once`, app.py:203-336) -/

/-- What one `client.get` attempt produces: an HTTP response with a status
code and a body, or a transport-level exception. -/
inductive Resp where
  | ok (status : Nat) (body : String) : Resp
  | exc (msg : String) : Resp

/-- How the fetch block of `scrape_once` leaves one target: proceed to
extraction with a body, status and `ok`/`retry` hint; publish an error state
and continue with the next target; or let an exception escape the per-target
handler and abort the whole cycle (an exception raised inside the
`HTTPStatusError` handler is not caught by the later `except`). -/
inductive FetchOutcome where
  | proceed (body : String) (status : Nat) (hint : String) : FetchOutcome
  | errorOut (msg : String) : FetchOutcome
  | cycleAbort (msg : String) : FetchOutcome

/-- Embedding of the fetch block (app.py:203-251): `raise_for_status` raises
on any status ≥ 400; a 403/406 primary response triggers exactly one retry
with the alternate header profile, whose response is used whatever its
status; any other error status or transport exception publishes an error and
moves on.  The second component counts the retries performed. -/
def fetchStage (primary alt : Resp) : FetchOutcome × Nat :=
  match primary with
  | Resp.exc m => (FetchOutcome.errorOut m, 0)
  | Resp.ok s body =>
    if 400 ≤ s then
      if s = 403 ∨ s = 406 then
        match alt with
        | Resp.ok s2 b2 => (FetchOutcome.proceed b2 s2 "retry", 1)
        | Resp.exc m => (FetchOutcome.cycleAbort m, 1)
      else (FetchOutcome.errorOut ("HTTP " ++ toString s), 0)
    else (FetchOutcome.proceed body s "ok", 0)

/-- What gets published for one target: a state update with a price (or
`null` when no strategy matched) plus attributes, or the `publish_error`
pair, whose state payload is always the `null` price. -/
inductive SiteRecord where
  | published (price : Option Rat) (method : String) (status : Nat) : SiteRecord
  | errored (msg : String) : SiteRecord

/-- The price carried by the state topic update of a record; `publish_error`
always publishes `{"price": None}`. -/
def SiteRecord.statePrice : SiteRecord → Option Rat
  | SiteRecord.published p _ _ => p
  | SiteRecord.errored _ => none

/-- One target's inputs for a cycle: the primary and alternate-header fetch
results, the parsed view of whichever body the fetch hands over, and the
target's stored divisor. -/
structure SiteRun where
  primary : Resp
  alt : Resp
  content : Content
  divisor : Option Rat

/-- Embedding of the per-target body of `scrape_once`: fetch, extract,
correct, publish.  `none` means an exception escaped and the cycle aborted. -/
def runSite (min_price max_price : Rat) (sr : SiteRun) : Option SiteRecord :=
  match fetchStage sr.primary sr.alt with
  | (FetchOutcome.cycleAbort _, _) => none
  | (FetchOutcome.errorOut msg, _) => some (SiteRecord.errored msg)
  | (FetchOutcome.proceed _ status hint, _) =>
    let r := extract_price sr.content
    match r.price with
    | none => some (SiteRecord.published none (r.method ++ "+" ++ hint) status)
    | some p =>
      match correct_price min_price max_price sr.divisor p r.method with
      | ⟨CorrectOutcome.accept p' m', _⟩ =>
        some (SiteRecord.published (some p') (m' ++ "+" ++ hint) status)
      | ⟨CorrectOutcome.reject reason _ _ _ _, _⟩ =>
        some (SiteRecord.errored reason)

/-- Embedding of the `for site in self.sites` loop: targets are processed in
configured order; a published error is recorded and the loop continues; an
escaped exception ends the cycle. -/
def runCycle (min_price max_price : Rat) : List SiteRun → List SiteRecord
  | [] => []
  | sr :: rest =>
    match runSite min_price max_price sr with
    | none => []
    | some r => r :: runCycle min_price max_price rest

/-! ### The force-refresh latch and scheduler
(`App._apply_force_request` / `_wait_for_force` / `loop`, app.py:410-488)

The MQTT callback hands the signal to the event loop through
`call_soon_threadsafe`, so `_apply_force_request` and each step of the
scheduler coroutine interleave atomically; the state below is exactly the
mutable state they share. -/

/-- The scheduler-visible signal state: whether `self.force_event` has been
created yet, whether it is set, and the `_pending_force_requests` count used
before the event exists. -/
structure SchedState where
  eventExists : Bool
  eventSet : Bool
  pending : Nat
deriving DecidableEq

/-- Embedding of `_apply_force_request` (app.py:410): set the event if it
exists, otherwise count the request as pending. -/
def apply_force_request (s : SchedState) : SchedState :=
  if s.eventExists then { s with eventSet := true }
  else { s with pending := s.pending + 1 }

/-- `k` force requests delivered while the scheduler is busy. -/
def applyForceN : Nat → SchedState → SchedState
  | 0, s => s
  | k + 1, s => applyForceN k (apply_force_request s)

/-- Embedding of the start of `loop` (app.py:451-458): create the event and
convert any pending requests into a set event. -/
def loop_start (s : SchedState) : SchedState :=
  let s1 := { s with eventExists := true }
  if s1.pending ≠ 0 then { s1 with eventSet := true, pending := 0 } else s1

/-- Embedding of `_wait_for_force(timeout)` (app.py:427-449): a latched
signal is consumed immediately; otherwise the wait races the timer against
the event, `sigDuringWait` saying whether a signal arrives before the
timeout.  Returns whether the wait reported a force and the state after it. -/
def wait_for_force (s : SchedState) (sigDuringWait : Bool) : Bool × SchedState :=
  let s1 := { s with eventExists := true }
  if s1.eventSet then (true, { s1 with eventSet := false })
  else if sigDuringWait then (true, { s1 with eventSet := false })
  else (false, s1)

/-- The signals the environment delivers around one iteration of the
interval-mode inner wait loop: whether one arrives during the wait itself,
and how many arrive while the force cycle it triggers is running. -/
structure WaitRound where
  sigDuringWait : Bool
  sigsDuringRun : Nat

/-- Embedding of the interval-mode inner loop of `loop` (app.py:478-482):
`while True: if await self._wait_for_force(interval): run "force" else
break`.  Produces the reason tags of the cycles it runs; rounds beyond the
given list carry no signals, and `fuel` bounds the unrolling. -/
def inner_wait_loop : Nat → SchedState → List WaitRound → List String × SchedState
  | 0, s, _ => ([], s)
  | fuel + 1, s, rounds =>
    let round := rounds.headD ⟨false, 0⟩
    let (forced, s1) := wait_for_force s round.sigDuringWait
    if forced then
      let s2 := applyForceN round.sigsDuringRun s1
      let (tags, s3) := inner_wait_loop fuel s2 rounds.tail
      ("force" :: tags, s3)
    else ([], s1)

/-! ## Theorems -/

/-- C3: for every extracted non-null price and configured bounds, an
in-bounds price is accepted unchanged; otherwise `p/100` is tried first and
tagged `+heuristic_div100`, then `p/10` tagged `+heuristic_div10`; if neither
repair lands in bounds the target is rejected with reason
`price_out_of_range` carrying the price and both bounds; price 5 with bounds
[1,1000] passes, 500 with [1,10] corrects to 5, 7 with [1,3] is rejected,
and a rejection publishes no price (the error record's state price is null). -/
theorem c3_plausibility_spec :
    (∀ (p mn mx : Rat) (m : String),
      correct_price mn mx none p m =
        if mn ≤ p ∧ p ≤ mx then ⟨CorrectOutcome.accept p m, false⟩
        else if mn ≤ p / 100 ∧ p / 100 ≤ mx then
          ⟨CorrectOutcome.accept (p / 100) (m ++ "+heuristic_div100"), false⟩
        else if mn ≤ p / 10 ∧ p / 10 ≤ mx then
          ⟨CorrectOutcome.accept (p / 10) (m ++ "+heuristic_div10"), false⟩
        else ⟨CorrectOutcome.reject "price_out_of_range" p mn mx m, false⟩) ∧
    correct_price 1 1000 none 5 "jsonld" = ⟨CorrectOutcome.accept 5 "jsonld", false⟩ ∧
    correct_price 1 10 none 500 "jsonld" =
      ⟨CorrectOutcome.accept 5 "jsonld+heuristic_div100", false⟩ ∧
    correct_price 1 3 none 7 "jsonld" =
      ⟨CorrectOutcome.reject "price_out_of_range" 7 1 3 "jsonld", false⟩ ∧
    (∀ (mn mx : Rat) (sr : SiteRun) (body : String) (status : Nat) (hint : String)
        (n : Nat) (p r rmn rmx : Rat) (mm : String),
      fetchStage sr.primary sr.alt = (FetchOutcome.proceed body status hint, n) →
      (extract_price sr.content).price = some p →
      (correct_price mn mx sr.divisor p (extract_price sr.content).method).outcome
        = CorrectOutcome.reject "price_out_of_range" r rmn rmx mm →
      runSite mn mx sr = some (SiteRecord.errored "price_out_of_range") ∧
      (SiteRecord.errored "price_out_of_range").statePrice = none) := by
  refine ⟨fun p mn mx m => rfl, ?_, ?_, ?_, ?_⟩
  · simp only [correct_price]
    norm_num
  · simp only [correct_price]
    norm_num
    decide
  · simp only [correct_price]
    norm_num
  · intro mn mx sr body status hint n p r rmn rmx mm hfetch hprice houtcome
    refine ⟨?_, rfl⟩
    unfold runSite
    rw [hfetch]
    simp only [hprice]
    rcases hck : correct_price mn mx sr.divisor p (extract_price sr.content).method with
      ⟨outc, w⟩
    rw [hck] at houtcome
    simp only at houtcome
    subst houtcome
    rfl

/-- C3 witness: the universally quantified parts applied at price 7 with
bounds [1,3] and at a concrete rejected site run. -/
theorem c3_plausibility_spec_witness :
    (correct_price 1 3 none 7 "jsonld" =
      if (1 : Rat) ≤ 7 ∧ (7 : Rat) ≤ 3 then ⟨CorrectOutcome.accept 7 "jsonld", false⟩
      else if (1 : Rat) ≤ 7 / 100 ∧ (7 : Rat) / 100 ≤ 3 then
        ⟨CorrectOutcome.accept ((7 : Rat) / 100) "jsonld+heuristic_div100", false⟩
      else if (1 : Rat) ≤ 7 / 10 ∧ (7 : Rat) / 10 ≤ 3 then
        ⟨CorrectOutcome.accept ((7 : Rat) / 10) "jsonld+heuristic_div10", false⟩
      else ⟨CorrectOutcome.reject "price_out_of_range" 7 1 3 "jsonld", false⟩) ∧
    runSite 1 3 ⟨Resp.ok 200 "", Resp.ok 200 "",
        ⟨[some (JVal.obj [("price", JVal.int 7)])], [], ""⟩, none⟩
      = some (SiteRecord.errored "price_out_of_range") := by
  constructor
  · exact c3_plausibility_spec.1 7 1 3 "jsonld"
  · have h1 : as_eur (JVal.int 7) = some 7 := by
      have hp : parseFloatSym (pyStrip (euroCandidate (pyStr (JVal.int 7)).toList))
          = some (7, 0) := by decide
      simp only [as_eur, try_float, pyFloat, hp]
      norm_num [decValue, isPyInt]
    have hx : extract_price ⟨[some (JVal.obj [("price", JVal.int 7)])], [], ""⟩
        = ⟨some 7, JVal.str "EUR", "jsonld-root"⟩ := by
      have hof : jGetD [("price", JVal.int 7)] "offers" = JVal.null := rfl
      have hhas : jHas [("price", JVal.int 7)] "price" = true := rfl
      have hget : jGetD [("price", JVal.int 7)] "price" = JVal.int 7 := rfl
      have hcur : jGetDefault [("price", JVal.int 7)] "priceCurrency" (JVal.str "EUR")
          = JVal.str "EUR" := rfl
      simp only [extract_price, scriptsScan, jItems, itemsScan, objCheck, offersProbe,
        rootProbe, hof, hhas, hget, hcur, h1, if_true]
    refine (c3_plausibility_spec.2.2.2.2 1 3
      ⟨Resp.ok 200 "", Resp.ok 200 "", ⟨[some (JVal.obj [("price", JVal.int 7)])], [], ""⟩, none⟩
      "" 200 "ok" 0 7 7 1 3 "jsonld-root" rfl ?_ ?_).1
    · rw [hx]
    · rw [hx]
      simp only [correct_price]
      norm_num

/-- C8 counterexample: a configured price divisor of `0` is non-positive, yet
no configuration warning is logged and the price is processed unadjusted —
the `try_float(...) or None` coercion turns it into an unconfigured divisor
before the `scrape_once` check can see it. -/
theorem c8_divisor_zero_unwarned :
    siteDivisor (some (JVal.int 0)) = none ∧
    (correct_price 1 1000 (siteDivisor (some (JVal.int 0))) 5 "jsonld").configWarned = false ∧
    (correct_price 1 1000 (siteDivisor (some (JVal.int 0))) 5 "jsonld").outcome
      = CorrectOutcome.accept 5 "jsonld" := by
  have hp : parseFloatSym (pyStrip (euroCandidate (pyStr (JVal.int 0)).toList))
      = some (0, 0) := by decide
  have hd : siteDivisor (some (JVal.int 0)) = none := by
    simp only [siteDivisor, try_float_opt, try_float, pyFloat, hp]
    norm_num [decValue]
  refine ⟨hd, ?_, ?_⟩ <;> rw [hd] <;> simp only [correct_price] <;> norm_num

/-- C8 (amended): a positive divisor is applied before the bounds check and
tagged with its value; a negative divisor logs the configuration warning, is
skipped, and processing continues with the unadjusted price; a divisor equal
to zero is falsy — both directly in `scrape_once` and already at
configuration load, where `try_float(...) or None` coerces it to
unconfigured — so it is silently skipped without the warning; an
unconfigured divisor leaves price, method and warning state untouched. -/
theorem c8_divisor_handling :
    (∀ (d p mn mx : Rat) (m : String), 0 < d →
      correct_price mn mx (some d) p m
        = correct_price mn mx none (p / d) (m ++ "+div" ++ fmtG d)) ∧
    (∀ (d p mn mx : Rat) (m : String), d < 0 →
      (correct_price mn mx (some d) p m).outcome = (correct_price mn mx none p m).outcome ∧
      (correct_price mn mx (some d) p m).configWarned = true) ∧
    (∀ (p mn mx : Rat) (m : String),
      correct_price mn mx (some 0) p m = correct_price mn mx none p m) ∧
    (∀ raw, try_float_opt raw = some 0 → siteDivisor raw = none) ∧
    (∀ (p mn mx : Rat) (m : String), (correct_price mn mx none p m).configWarned = false) := by
  refine ⟨?_, ?_, ?_, ?_, ?_⟩
  · intro d p mn mx m hd
    simp only [correct_price, if_pos hd.ne', if_pos hd]
  · intro d p mn mx m hd
    simp only [correct_price, if_pos hd.ne, if_neg hd.asymm]
    constructor
    · split_ifs <;> rfl
    · split_ifs <;> rfl
  · intro p mn mx m
    simp [correct_price]
  · intro raw h
    simp [siteDivisor, h]
  · intro p mn mx m
    simp only [correct_price]
    split_ifs <;> rfl

/-- C8 witness: divisor 2 divides price 10 to 5 with tag `+div2` before the
bounds check; divisor -2 sets the configuration warning. -/
theorem c8_divisor_handling_witness :
    correct_price 1 1000 (some 2) 10 "jsonld" = correct_price 1 1000 none 5 "jsonld+div2" ∧
    (correct_price 1 1000 (some (-2)) 5 "jsonld").configWarned = true := by
  constructor
  · have h := c8_divisor_handling.1 2 10 1 1000 "jsonld" (by norm_num)
    have hf : fmtG 2 = "2" := by
      norm_num [fmtG]
      rfl
    rw [h, hf, show (10 : Rat) / 2 = 5 by norm_num,
      show "jsonld" ++ "+div" ++ "2" = "jsonld+div2" from rfl]
  · exact (c8_divisor_handling.2.1 (-2) 5 1 1000 "jsonld" (by norm_num)).2

/-- C10: missing, unparseable or zero-parsing numeric options fall back by
falsy-`or`: the effective bounds become `[0, 1e9]` (a configured
`max_price` of "0" silently becomes `1e9`), and a `price_divisor` of 0 is
treated as not configured at all — neither the divisor adjustment nor the
non-positive-divisor warning fires. -/
theorem c10_falsy_config_coercion :
    (∀ raw, try_float_opt raw = none ∨ try_float_opt raw = some 0 →
      effectiveMinPrice raw = 0 ∧ effectiveMaxPrice raw = (10 : Rat) ^ 9 ∧
      siteDivisor raw = none) ∧
    effectiveMaxPrice (some (JVal.str "0")) = (10 : Rat) ^ 9 ∧
    effectiveMinPrice none = 0 ∧
    effectiveMaxPrice none = (10 : Rat) ^ 9 ∧
    effectiveMaxPrice (some (JVal.str "not a number")) = (10 : Rat) ^ 9 ∧
    siteDivisor (some (JVal.int 0)) = none ∧
    (∀ (p mn mx : Rat) (m : String),
      correct_price mn mx (siteDivisor (some (JVal.int 0))) p m
        = correct_price mn mx none p m ∧
      (correct_price mn mx none p m).configWarned = false) := by
  have hz : parseFloatSym (pyStrip (euroCandidate (pyStr (JVal.str "0")).toList))
      = some (0, 0) := by decide
  have hzi : parseFloatSym (pyStrip (euroCandidate (pyStr (JVal.int 0)).toList))
      = some (0, 0) := by decide
  have hnan : parseFloatSym (pyStrip (euroCandidate (pyStr (JVal.str "not a number")).toList))
      = none := by decide
  have hdz : siteDivisor (some (JVal.int 0)) = none := by
    simp only [siteDivisor, try_float_opt, try_float, pyFloat, hzi]
    norm_num [decValue]
  refine ⟨?_, ?_, ?_, ?_, ?_, hdz, ?_⟩
  · intro raw h
    rcases h with h | h <;>
      simp [effectiveMinPrice, effectiveMaxPrice, siteDivisor, orFalsy, h]
  · simp only [effectiveMaxPrice, orFalsy, try_float_opt, try_float, pyFloat, hz]
    norm_num [decValue]
  · simp [effectiveMinPrice, orFalsy, try_float_opt]
  · simp [effectiveMaxPrice, orFalsy, try_float_opt]
  · simp only [effectiveMaxPrice, orFalsy, try_float_opt, try_float, pyFloat, hnan]
    rfl
  · intro p mn mx m
    rw [hdz]
    refine ⟨rfl, ?_⟩
    simp only [correct_price]
    split_ifs <;> rfl

/-- C10 witness: the falsy fallback applied at the concrete option value
"0", whose parse is zero. -/
theorem c10_falsy_config_coercion_witness :
    (try_float_opt (some (JVal.str "0")) = none ∨
      try_float_opt (some (JVal.str "0")) = some 0) ∧
    effectiveMinPrice (some (JVal.str "0")) = 0 ∧
    effectiveMaxPrice (some (JVal.str "0")) = (10 : Rat) ^ 9 ∧
    siteDivisor (some (JVal.str "0")) = none := by
  have hz : parseFloatSym (pyStrip (euroCandidate (pyStr (JVal.str "0")).toList))
      = some (0, 0) := by decide
  have h : try_float_opt (some (JVal.str "0")) = some 0 := by
    simp only [try_float_opt, try_float, pyFloat, hz]
    norm_num [decValue]
  have h2 := c10_falsy_config_coercion.1 (some (JVal.str "0")) (Or.inr h)
  exact ⟨Or.inr h, h2.1, h2.2.1, h2.2.2⟩

/-- C9: a 403/406 primary response gets exactly one retry, which uses the
alternate-profile response; any other error status or a transport exception
gets no retry, publishes an error record (whose state price is null) for
that target, and the cycle proceeds with the next target instead of
aborting. -/
theorem c9_fetch_retry_spec :
    (∀ (s : Nat) (b : String) (alt : Resp), s = 403 ∨ s = 406 →
      (fetchStage (Resp.ok s b) alt).2 = 1) ∧
    (∀ (s s2 : Nat) (b b2 : String), s = 403 ∨ s = 406 →
      fetchStage (Resp.ok s b) (Resp.ok s2 b2)
        = (FetchOutcome.proceed b2 s2 "retry", 1)) ∧
    (∀ (s : Nat) (b : String) (alt : Resp), 400 ≤ s → ¬(s = 403 ∨ s = 406) →
      fetchStage (Resp.ok s b) alt = (FetchOutcome.errorOut ("HTTP " ++ toString s), 0)) ∧
    (∀ (m : String) (alt : Resp),
      fetchStage (Resp.exc m) alt = (FetchOutcome.errorOut m, 0)) ∧
    (∀ (mn mx : Rat) (sr : SiteRun) (rest : List SiteRun) (msg : String) (n : Nat),
      fetchStage sr.primary sr.alt = (FetchOutcome.errorOut msg, n) →
      runCycle mn mx (sr :: rest) = SiteRecord.errored msg :: runCycle mn mx rest ∧
      (SiteRecord.errored msg).statePrice = none) := by
  refine ⟨?_, ?_, ?_, ?_, ?_⟩
  · intro s b alt h
    rcases h with rfl | rfl <;> rcases alt with ⟨s2, b2⟩ | m <;> simp [fetchStage]
  · intro s s2 b b2 h
    rcases h with rfl | rfl <;> simp [fetchStage]
  · intro s b alt h400 hne
    simp [fetchStage, if_pos h400, if_neg hne]
  · intro m alt
    rfl
  · intro mn mx sr rest msg n h
    have hrs : runSite mn mx sr = some (SiteRecord.errored msg) := by
      unfold runSite
      rw [h]
    refine ⟨?_, rfl⟩
    simp only [runCycle, hrs]

/-- C9 witness: a 403 primary with a 200 alternate retries exactly once and
proceeds with the retry response; a transport exception on the first of two
targets is recorded and the second target is still processed. -/
theorem c9_fetch_retry_spec_witness :
    fetchStage (Resp.ok 403 "blocked") (Resp.ok 200 "page")
      = (FetchOutcome.proceed "page" 200 "retry", 1) ∧
    runCycle 0 1000
        [⟨Resp.exc "ConnectError: boom", Resp.ok 200 "", ⟨[], [], ""⟩, none⟩,
         ⟨Resp.exc "ReadTimeout: slow", Resp.ok 200 "", ⟨[], [], ""⟩, none⟩]
      = [SiteRecord.errored "ConnectError: boom", SiteRecord.errored "ReadTimeout: slow"] ∧
    (SiteRecord.errored "ConnectError: boom").statePrice = none := by
  refine ⟨c9_fetch_retry_spec.2.1 403 200 "blocked" "page" (Or.inl rfl), ?_, rfl⟩
  have h1 := (c9_fetch_retry_spec.2.2.2.2 0 1000
    ⟨Resp.exc "ConnectError: boom", Resp.ok 200 "", ⟨[], [], ""⟩, none⟩
    [⟨Resp.exc "ReadTimeout: slow", Resp.ok 200 "", ⟨[], [], ""⟩, none⟩]
    "ConnectError: boom" 0 rfl).1
  have h2 := (c9_fetch_retry_spec.2.2.2.2 0 1000
    ⟨Resp.exc "ReadTimeout: slow", Resp.ok 200 "", ⟨[], [], ""⟩, none⟩
    [] "ReadTimeout: slow" 0 rfl).1
  rw [h1, h2]
  rfl

/-- Helper: once the event object exists, any positive number of force
requests leaves it set and touches nothing else (coalescing). -/
theorem applyForceN_sets (k : Nat) (s : SchedState) (hex : s.eventExists = true) :
    applyForceN (k + 1) s = ⟨true, true, s.pending⟩ := by
  induction k generalizing s with
  | zero =>
    simp [applyForceN, apply_force_request, hex]
  | succ k ih =>
    have h1 : apply_force_request s = ⟨true, true, s.pending⟩ := by
      simp [apply_force_request, hex]
    show applyForceN (k + 1) (apply_force_request s) = _
    rw [h1, ih ⟨true, true, s.pending⟩ rfl]

/-- Helper: before the event object exists, force requests accumulate in the
pending counter. -/
theorem applyForceN_pending (k : Nat) (s : SchedState) (hex : s.eventExists = false) :
    applyForceN k s = ⟨false, s.eventSet, s.pending + k⟩ := by
  induction k generalizing s with
  | zero =>
    cases s
    simp_all [applyForceN]
  | succ k ih =>
    have h1 : apply_force_request s = ⟨false, s.eventSet, s.pending + 1⟩ := by
      simp [apply_force_request, hex]
    show applyForceN k (apply_force_request s) = _
    rw [h1, ih ⟨false, s.eventSet, s.pending + 1⟩ rfl]
    simp only [SchedState.mk.injEq, true_and]
    omega

/-- C4: the refresh signal is a latch. A signal during the wait makes the
wait report a force immediately (cutting it short) and the loop runs a
cycle tagged "force"; any positive number of signals arriving while a cycle
is in flight (the event exists) leaves the event set and yields exactly one
additional "force" cycle on the next wait iteration; signals arriving
before the event object exists are counted in the pending fallback, which
the loop start converts into a set event observed by the first wait; with
no signal latched and none arriving, no force cycle runs. -/
theorem c4_force_latch :
    (∀ s : SchedState, (wait_for_force s true).1 = true) ∧
    (∀ s : SchedState, s.eventSet = false →
      (inner_wait_loop 2 s [⟨true, 0⟩]).1 = ["force"]) ∧
    (∀ (s : SchedState) (k : Nat), s.eventExists = true → 1 ≤ k →
      (inner_wait_loop 2 (applyForceN k s) []).1 = ["force"]) ∧
    (∀ (s : SchedState) (k : Nat), s.eventExists = false → 1 ≤ k →
      (loop_start (applyForceN k s)).eventSet = true ∧
      (inner_wait_loop 2 (loop_start (applyForceN k s)) []).1 = ["force"]) ∧
    (∀ (s : SchedState) (fuel : Nat), s.eventSet = false →
      (inner_wait_loop fuel s []).1 = []) := by
  refine ⟨?_, ?_, ?_, ?_, ?_⟩
  · intro s
    by_cases h : s.eventSet <;> simp [wait_for_force, h]
  · intro s h
    simp [inner_wait_loop, wait_for_force, applyForceN, h]
  · intro s k hex hk
    obtain ⟨k', rfl⟩ : ∃ k', k = k' + 1 := ⟨k - 1, by omega⟩
    rw [applyForceN_sets k' s hex]
    simp [inner_wait_loop, wait_for_force, applyForceN]
  · intro s k hex hk
    obtain ⟨k', rfl⟩ : ∃ k', k = k' + 1 := ⟨k - 1, by omega⟩
    rw [applyForceN_pending (k' + 1) s hex]
    have hls : loop_start ⟨false, s.eventSet, s.pending + (k' + 1)⟩ = ⟨true, true, 0⟩ := by
      simp [loop_start]
      try omega
    rw [hls]
    constructor
    · rfl
    · simp [inner_wait_loop, wait_for_force, applyForceN]
  · intro s fuel h
    cases fuel with
    | zero => rfl
    | succ fuel => simp [inner_wait_loop, wait_for_force, h]

/-- C4 witness: three signals during an in-flight cycle coalesce into
exactly one "force" cycle afterwards; a pre-start signal survives through
the pending counter; a signal during the wait forces immediately. -/
theorem c4_force_latch_witness :
    (wait_for_force ⟨true, false, 0⟩ true).1 = true ∧
    (inner_wait_loop 2 (applyForceN 3 ⟨true, false, 0⟩) []).1 = ["force"] ∧
    (inner_wait_loop 2 (loop_start (applyForceN 1 ⟨false, false, 0⟩)) []).1 = ["force"] ∧
    (inner_wait_loop 5 ⟨true, false, 7⟩ []).1 = [] :=
  ⟨c4_force_latch.1 ⟨true, false, 0⟩,
   c4_force_latch.2.2.1 ⟨true, false, 0⟩ 3 rfl (by decide),
   (c4_force_latch.2.2.2.1 ⟨false, false, 0⟩ 1 rfl (by decide)).2,
   c4_force_latch.2.2.2.2 ⟨true, false, 7⟩ 5 rfl⟩

/-- Helper: `dropWhile` is the identity when no element satisfies the
predicate. -/
theorem dropWhile_eq_self_of (p : Char → Bool) (l : List Char)
    (h : ∀ c ∈ l, p c = false) : l.dropWhile p = l := by
  cases l with
  | nil => rfl
  | cons c cs => simp [List.dropWhile_cons, h c (List.mem_cons_self c cs)]

/-- Helper: a pointwise-identity map is the identity. -/
theorem map_eq_self_of (f : Char → Char) (l : List Char)
    (h : ∀ c ∈ l, f c = c) : l.map f = l := by
  induction l with
  | nil => rfl
  | cons c cs ih =>
    simp only [List.map_cons, h c (List.mem_cons_self c cs), List.cons.injEq, true_and]
    exact ih fun x hx => h x (List.mem_cons_of_mem c hx)

/-- Helper: a digit character is not whitespace, not a space, not a
separator, not a sign and not an exponent marker. -/
theorem isDigitCh_props (c : Char) (h : isDigitCh c = true) :
    isWsCh c = false ∧ c ≠ ' ' ∧ c ≠ '.' ∧ c ≠ ',' ∧ c ≠ '-' ∧ c ≠ '+' := by
  simp only [isDigitCh, Bool.and_eq_true, decide_eq_true_eq] at h
  obtain ⟨h0, h9⟩ := h
  have hv0 : ('0' : Char).val ≤ c.val := h0
  have hv9 : c.val ≤ ('9' : Char).val := h9
  refine ⟨?_, ?_, ?_, ?_, ?_, ?_⟩
  · simp only [isWsCh, Char.isWhitespace]
    have : c ≠ ' ' ∧ c ≠ '\t' ∧ c ≠ '\r' ∧ c ≠ '\n' := by
      refine ⟨?_, ?_, ?_, ?_⟩ <;> rintro rfl <;> simp_all
    simp [this.1, this.2.1, this.2.2.1, this.2.2.2]
  all_goals (rintro rfl; simp_all)

/-- Helper: `pyStrip` leaves an all-digit string unchanged. -/
theorem pyStrip_digits (l : List Char) (h : ∀ c ∈ l, isDigitCh c = true) :
    pyStrip l = l := by
  unfold pyStrip
  rw [dropWhile_eq_self_of _ _ fun c hc => (isDigitCh_props c (h c hc)).1]
  rw [dropWhile_eq_self_of _ _ fun c hc =>
    (isDigitCh_props c (h c (List.mem_reverse.mp hc))).1]
  exact List.reverse_reverse l

/-- Helper: `euroCandidate` leaves an all-digit string unchanged. -/
theorem euroCandidate_digits (l : List Char) (h : ∀ c ∈ l, isDigitCh c = true) :
    euroCandidate l = l := by
  unfold euroCandidate dropSpaces
  rw [pyStrip_digits l h]
  have hf : l.filter (fun c => c ≠ ' ') = l :=
    List.filter_eq_self.mpr fun c hc => by
      simp [(isDigitCh_props c (h c hc)).2.1]
  rw [hf]
  have hnc : ¬ (',' ∈ l ∧ '.' ∈ l) := by
    rintro ⟨hc, -⟩
    exact absurd (h ',' hc) (by decide)
  rw [if_neg hnc]
  have hfd : l.filter (fun c => c ≠ '.') = l :=
    List.filter_eq_self.mpr fun c hc => by
      simp [(isDigitCh_props c (h c hc)).2.2.1]
  rw [hfd]
  exact map_eq_self_of _ l fun c hc => by
    simp [(isDigitCh_props c (h c hc)).2.2.2.1]

/-- Helper: `splitDigits` consumes an all-digit string whole. -/
theorem splitDigits_digits (l : List Char) (h : ∀ c ∈ l, isDigitCh c = true) :
    splitDigits l = (l, []) := by
  induction l with
  | nil => rfl
  | cons c cs ih =>
    unfold splitDigits
    rw [if_pos (h c (List.mem_cons_self c cs)),
      ih fun x hx => h x (List.mem_cons_of_mem c hx)]

/-- Helper: `float()` on a non-empty all-digit string is its integer value. -/
theorem parseFloatSym_digits (l : List Char) (hne : l ≠ [])
    (h : ∀ c ∈ l, isDigitCh c = true) :
    parseFloatSym l = some ((digitsVal l : Int), 0) := by
  cases l with
  | nil => exact absurd rfl hne
  | cons c cs =>
    have hc := h c (List.mem_cons_self c cs)
    have hprops := isDigitCh_props c hc
    unfold parseFloatSym
    have hsgn : (match c :: cs with
        | '-' :: r => ((-1 : Int), r)
        | '+' :: r => ((1 : Int), r)
        | _ => ((1 : Int), c :: cs)) = ((1 : Int), c :: cs) := by
      have h1 : c ≠ '-' := hprops.2.2.2.2.1
      have h2 : c ≠ '+' := hprops.2.2.2.2.2
      rcases c with ⟨v, hv⟩
      split
      · rename_i heq
        injection heq with heq1 _
        exact absurd heq1 h1
      · rename_i heq
        injection heq with heq1 _
        exact absurd heq1 h2
      · rfl
    rw [hsgn]
    simp only
    rw [splitDigits_digits (c :: cs) h]
    simp only [List.cons_ne_self, reduceCtorEq]
    have hdot : c ≠ '.' := hprops.2.2.1
    have hmatch : (match ([] : List Char), ((c :: cs).isEmpty) with
        | _, _ => True) := trivial
    simp [parseExpSym, List.isEmpty, one_mul]

/-- Helper: `try_float` on an all-digits string parses it, so the
`isdigit()` fallback of `_as_eur` is unreachable. -/
theorem try_float_digits (s : String) (h : pyIsDigit s = true) :
    try_float (JVal.str s) = some ((digitsVal s.toList : Rat)) := by
  simp only [pyIsDigit, Bool.and_eq_true, List.all_eq_true, decide_eq_true_eq] at h
  obtain ⟨hne, hall⟩ := h
  have hne' : s.toList ≠ [] := by
    simpa [List.isEmpty_iff] using hne
  have hd : ∀ c ∈ s.toList, isDigitCh c = true := hall
  show pyFloat (euroCandidate (pyStr (JVal.str s)).toList) = _
  have hps : pyStr (JVal.str s) = s := rfl
  rw [hps, euroCandidate_digits _ hd]
  unfold pyFloat
  rw [pyStrip_digits _ hd, parseFloatSym_digits _ hne' hd]
  simp [decValue]

/-- C5: the number normalizer treats a lone separator kind as grouping dots
plus a comma decimal point (European default); with both separators present
the earlier `.` means dots are grouping and the comma is the decimal point,
otherwise commas are grouping; the documented examples parse accordingly and
non-numeric residue yields `none` rather than an exception (the embedding is
a total pure function). -/
theorem c5_normalize_euro_spec :
    normalize_euro "1.234,56" = some ((123456 : Rat) / 100) ∧
    normalize_euro "1,234.56" = some ((123456 : Rat) / 100) ∧
    normalize_euro "19,99" = some ((1999 : Rat) / 100) ∧
    normalize_euro "abc" = none ∧
    (∀ num : String,
      ¬ (',' ∈ dropSpaces (pyStrip num.toList) ∧ '.' ∈ dropSpaces (pyStrip num.toList)) →
      normalize_euro num = pyFloat
        (((dropSpaces (pyStrip num.toList)).filter (fun c => c ≠ '.')).map
          (fun c => if c = ',' then '.' else c))) ∧
    (∀ num : String,
      (',' ∈ dropSpaces (pyStrip num.toList) ∧ '.' ∈ dropSpaces (pyStrip num.toList)) →
      (dropSpaces (pyStrip num.toList)).indexOf '.'
        < (dropSpaces (pyStrip num.toList)).indexOf ',' →
      normalize_euro num = pyFloat
        (((dropSpaces (pyStrip num.toList)).filter (fun c => c ≠ '.')).map
          (fun c => if c = ',' then '.' else c))) ∧
    (∀ num : String,
      (',' ∈ dropSpaces (pyStrip num.toList) ∧ '.' ∈ dropSpaces (pyStrip num.toList)) →
      ¬ (dropSpaces (pyStrip num.toList)).indexOf '.'
        < (dropSpaces (pyStrip num.toList)).indexOf ',' →
      normalize_euro num = pyFloat ((dropSpaces (pyStrip num.toList)).filter (fun c => c ≠ ','))) := by
  have h1 : parseFloatSym (pyStrip (euroCandidate "1.234,56".toList)) = some (123456, 2) := by
    decide
  have h2 : parseFloatSym (pyStrip (euroCandidate "1,234.56".toList)) = some (123456, 2) := by
    decide
  have h3 : parseFloatSym (pyStrip (euroCandidate "19,99".toList)) = some (1999, 2) := by
    decide
  refine ⟨?_, ?_, ?_, by decide, ?_, ?_, ?_⟩
  · simp only [normalize_euro, pyFloat, h1]
    norm_num [decValue]
  · simp only [normalize_euro, pyFloat, h2]
    norm_num [decValue]
  · simp only [normalize_euro, pyFloat, h3]
    norm_num [decValue]
  · intro num h
    simp only [normalize_euro, euroCandidate, if_neg h]
  · intro num hb hlt
    simp only [normalize_euro, euroCandidate, if_pos hb, if_pos hlt]
  · intro num hb hlt
    simp only [normalize_euro, euroCandidate, if_pos hb, if_neg hlt]

/-- C5 witness: the single-separator branch characterization applied at the
concrete input "19,99". -/
theorem c5_normalize_euro_spec_witness :
    ¬ (',' ∈ dropSpaces (pyStrip "19,99".toList) ∧ '.' ∈ dropSpaces (pyStrip "19,99".toList)) ∧
    normalize_euro "19,99" = pyFloat
      (((dropSpaces (pyStrip "19,99".toList)).filter (fun c => c ≠ '.')).map
        (fun c => if c = ',' then '.' else c)) :=
  ⟨by decide, c5_normalize_euro_spec.2.2.2.2.1 "19,99" (by decide)⟩

/-- C2 counterexample: the all-digits string price "12999" is ≥ 10000 but is
NOT divided by 100 — `try_float` already parses it, so the documented
digit-string cents rule never fires and the value is returned unadjusted. -/
theorem c2_digit_string_not_divided :
    as_eur (JVal.str "12999") = some 12999 ∧
    as_eur (JVal.str "12999") ≠ some ((12999 : Rat) / 100) := by
  have h : as_eur (JVal.str "12999") = some 12999 := by
    have hp : try_float (JVal.str "12999") = some ((digitsVal "12999".toList : Rat)) :=
      try_float_digits "12999" (by decide)
    have hdv : digitsVal "12999".toList = 12999 := by decide
    rw [hdv] at hp
    norm_num at hp
    simp [as_eur, hp, isPyInt]
  refine ⟨h, ?_⟩
  rw [h]
  intro hc
  have := Option.some.inj hc
  norm_num at this

/-- C2 (amended): the cents heuristic divides by 100 exactly the values that
parse to ≥ 10000 and were JSON integers; integer 12999 yields 129.99 under
the structured-data method tag; every string price that parses — in
particular every all-digits string, making the documented digit-string rule
dead code — and every JSON decimal is returned unadjusted. -/
theorem c2_cents_heuristic :
    (∀ (n : Int) (q : Rat), try_float (JVal.int n) = some q → 10000 ≤ q →
      as_eur (JVal.int n) = some (q / 100)) ∧
    (∀ (s : String) (q : Rat), try_float (JVal.str s) = some q →
      as_eur (JVal.str s) = some q) ∧
    (∀ s : String, pyIsDigit s = true →
      as_eur (JVal.str s) = some ((digitsVal s.toList : Rat))) ∧
    (∀ (m : Int) (e : Nat) (q : Rat), try_float (JVal.num m e) = some q →
      as_eur (JVal.num m e) = some q) ∧
    as_eur (JVal.int 12999) = some ((12999 : Rat) / 100) ∧
    (extract_price ⟨[some (JVal.obj
        [("offers", JVal.obj [("price", JVal.int 12999), ("priceCurrency", JVal.str "EUR")])])],
      [], ""⟩).price = some ((12999 : Rat) / 100) ∧
    (extract_price ⟨[some (JVal.obj
        [("offers", JVal.obj [("price", JVal.int 12999), ("priceCurrency", JVal.str "EUR")])])],
      [], ""⟩).method = "jsonld" := by
  have hint : ∀ (n : Int) (q : Rat), try_float (JVal.int n) = some q → 10000 ≤ q →
      as_eur (JVal.int n) = some (q / 100) := by
    intro n q h hq
    simp only [as_eur, h]
    rw [if_pos ⟨hq, rfl⟩]
  have hstr : ∀ (s : String) (q : Rat), try_float (JVal.str s) = some q →
      as_eur (JVal.str s) = some q := by
    intro s q h
    simp [as_eur, h, isPyInt]
  have hp : parseFloatSym (pyStrip (euroCandidate (pyStr (JVal.int 12999)).toList))
      = some (12999, 0) := by decide
  have htf : try_float (JVal.int 12999) = some 12999 := by
    simp only [try_float, pyFloat, hp]
    norm_num [decValue]
  have h12999 : as_eur (JVal.int 12999) = some ((12999 : Rat) / 100) :=
    hint 12999 12999 htf (by norm_num)
  have hscan : scriptsScan [some (JVal.obj
      [("offers", JVal.obj [("price", JVal.int 12999), ("priceCurrency", JVal.str "EUR")])])]
      = some ((12999 : Rat) / 100, JVal.str "EUR", "jsonld") := by
    have hof : jGetD [("offers", JVal.obj [("price", JVal.int 12999),
        ("priceCurrency", JVal.str "EUR")])] "offers"
        = JVal.obj [("price", JVal.int 12999), ("priceCurrency", JVal.str "EUR")] := rfl
    have hpr : jGetD [("price", JVal.int 12999), ("priceCurrency", JVal.str "EUR")] "price"
        = JVal.int 12999 := rfl
    have hcu : jGetD [("price", JVal.int 12999), ("priceCurrency", JVal.str "EUR")]
        "priceCurrency" = JVal.str "EUR" := rfl
    have htr : jTruthy (JVal.int 12999) = true := rfl
    have htr2 : jTruthy (JVal.str "EUR") = true := rfl
    simp [scriptsScan, jItems, itemsScan, objCheck, offersProbe, rootProbe, hof, hpr, hcu,
      htr, htr2, h12999]
  refine ⟨hint, hstr, ?_, ?_, h12999, ?_, ?_⟩
  · intro s hds
    exact hstr s _ (try_float_digits s hds)
  · intro m e q h
    simp [as_eur, h, isPyInt]
  · simp only [extract_price, hscan]
  · simp only [extract_price, hscan]

/-- C2 witness: the integer heuristic applied at 12999, giving 129.99. -/
theorem c2_cents_heuristic_witness :
    as_eur (JVal.int 12999) = some ((12999 : Rat) / 100) ∧
    as_eur (JVal.str "129.99") = some 12999 := by
  constructor
  · exact c2_cents_heuristic.2.2.2.2.1
  · have hp : parseFloatSym (pyStrip (euroCandidate (pyStr (JVal.str "129.99")).toList))
        = some (12999, 0) := by decide
    have htf : try_float (JVal.str "129.99") = some 12999 := by
      simp only [try_float, pyFloat, hp]
      norm_num [decValue]
    exact c2_cents_heuristic.2.1 "129.99" 12999 htf


theorem offersProbe_tag (off : JVal) (r : Rat × JVal × String)
    (h : offersProbe off = some r) : r.2.2 = "jsonld" := by
  cases off <;> simp only [offersProbe] at h
  case obj o =>
    split at h
    · injection h with h1
      exact h1 ▸ rfl
    · exact Option.noConfusion h
  all_goals exact Option.noConfusion h

theorem rootProbe_tag (fields : List (String × JVal)) (r : Rat × JVal × String)
    (h : rootProbe fields = some r) : r.2.2 = "jsonld-root" := by
  unfold rootProbe at h
  split at h
  · split at h
    · injection h with h1
      exact h1 ▸ rfl
    · exact Option.noConfusion h
  · exact Option.noConfusion h

theorem objCheck_tag (fields : List (String × JVal)) (r : Rat × JVal × String)
    (h : objCheck fields = some r) : r.2.2 = "jsonld" ∨ r.2.2 = "jsonld-root" := by
  unfold objCheck at h
  split at h
  · rename_i r' heq
    injection h with h1
    exact h1 ▸ Or.inl (offersProbe_tag _ r' heq)
  · exact Or.inr (rootProbe_tag fields r h)

theorem itemsScan_tag (items : List JVal) (r : Rat × JVal × String)
    (h : itemsScan items = some r) : r.2.2 = "jsonld" ∨ r.2.2 = "jsonld-root" := by
  induction items with
  | nil => exact absurd h (by simp [itemsScan])
  | cons x rest ih =>
    cases x with
    | obj fields =>
      simp only [itemsScan] at h
      split at h
      · rename_i r' heq
        injection h with h1
        exact h1 ▸ objCheck_tag fields r' heq
      · exact ih h
    | null => exact ih h
    | bool b => exact ih h
    | int n => exact ih h
    | num m e => exact ih h
    | str s => exact ih h
    | arr l => exact ih h

theorem scriptsScan_tag (scripts : List (Option JVal)) (r : Rat × JVal × String)
    (h : scriptsScan scripts = some r) : r.2.2 = "jsonld" ∨ r.2.2 = "jsonld-root" := by
  induction scripts with
  | nil => exact absurd h (by simp [scriptsScan])
  | cons x rest ih =>
    cases x with
    | none => exact ih h
    | some data =>
      simp only [scriptsScan] at h
      split at h
      · rename_i r' heq
        injection h with h1
        exact h1 ▸ itemsScan_tag (jItems data) r' heq
      · exact ih h

theorem selectorScan_tag (sels : List String) (hits : List (Option String))
    (p : Option Rat) (m : String) (h : selectorScan sels hits = some (p, m)) :
    ∃ sel ∈ sels, m = "selector:" ++ sel := by
  induction sels generalizing hits with
  | nil => exact absurd h (by simp [selectorScan])
  | cons sel sels ih =>
    simp only [selectorScan] at h
    split at h
    · split at h
      · injection h with h1
        obtain ⟨h2, h3⟩ := Prod.mk.injEq .. ▸ h1
        exact ⟨sel, List.mem_cons_self sel sels, h3.symm⟩
      · obtain ⟨s, hs, h3⟩ := ih hits.tail h
        exact ⟨s, List.mem_cons_of_mem sel hs, h3⟩
    · obtain ⟨s, hs, h3⟩ := ih hits.tail h
      exact ⟨s, List.mem_cons_of_mem sel hs, h3⟩


theorem parseExpSym_nonneg (m : Int) (k : Nat) (cs : List Char) (m' : Int) (k' : Nat)
    (hm : 0 ≤ m) (h : parseExpSym m k cs = some (m', k')) : 0 ≤ m' := by
  cases cs with
  | nil =>
    simp only [parseExpSym] at h
    injection h with h1
    obtain ⟨h2, -⟩ := Prod.mk.injEq .. ▸ h1
    exact h2 ▸ hm
  | cons e r =>
    simp only [parseExpSym] at h
    split at h
    · split at h
      · exact Option.noConfusion h
      · split at h
        · injection h with h1
          obtain ⟨h2, -⟩ := Prod.mk.injEq .. ▸ h1
          exact h2 ▸ hm
        · injection h with h1
          obtain ⟨h2, -⟩ := Prod.mk.injEq .. ▸ h1
          refine h2 ▸ mul_nonneg hm (pow_nonneg (by norm_num) _)
    · exact Option.noConfusion h

theorem parseFloatSym_nonneg (cs : List Char) (m : Int) (k : Nat)
    (hnominus : ∀ c ∈ cs, c ≠ '-' ∧ c ≠ '+')
    (h : parseFloatSym cs = some (m, k)) : 0 ≤ m := by
  cases cs with
  | nil =>
    simp [parseFloatSym, splitDigits, parseExpSym] at h
  | cons c cs =>
    have hc := hnominus c (List.mem_cons_self c cs)
    unfold parseFloatSym at h
    have hsgn : (match c :: cs with
        | '-' :: r => ((-1 : Int), r)
        | '+' :: r => ((1 : Int), r)
        | _ => ((1 : Int), c :: cs)) = ((1 : Int), c :: cs) := by
      rcases c with ⟨v, hv⟩
      split
      · rename_i heq
        injection heq with heq1 _
        exact absurd heq1 hc.1
      · rename_i heq
        injection heq with heq1 _
        exact absurd heq1 hc.2
      · rfl
    rw [hsgn] at h
    simp only at h
    split at h
    · split at h
      · exact Option.noConfusion h
      · refine parseExpSym_nonneg _ _ _ m k ?_ h
        simp only [one_mul]
        positivity
    · split at h
      · exact Option.noConfusion h
      · refine parseExpSym_nonneg _ _ _ m k ?_ h
        simp


theorem mem_pyStrip (l : List Char) (c : Char) (h : c ∈ pyStrip l) : c ∈ l := by
  unfold pyStrip at h
  rw [List.mem_reverse] at h
  have h1 := (List.dropWhile_sublist _).mem h
  rw [List.mem_reverse] at h1
  exact (List.dropWhile_sublist _).mem h1

theorem mem_euroCandidate (l : List Char) (c : Char) (h : c ∈ euroCandidate l) :
    c ∈ l ∨ c = '.' := by
  have base : ∀ x ∈ dropSpaces (pyStrip l), x ∈ l := fun x hx =>
    mem_pyStrip l x (List.mem_of_mem_filter hx)
  simp only [euroCandidate] at h
  split at h
  · split at h
    · obtain ⟨a, ha, rfl⟩ := List.mem_map.mp h
      by_cases hc : a = ','
      · simp [hc]
      · simp only [if_neg hc]
        exact Or.inl (base a (List.mem_of_mem_filter ha))
    · exact Or.inl (base c (List.mem_of_mem_filter h))
  · obtain ⟨a, ha, rfl⟩ := List.mem_map.mp h
    by_cases hc : a = ','
    · simp [hc]
    · simp only [if_neg hc]
      exact Or.inl (base a (List.mem_of_mem_filter ha))

theorem decValue_nonneg (m : Int) (k : Nat) (h : 0 ≤ m) : 0 ≤ decValue m k := by
  unfold decValue
  positivity

theorem pyFloat_nonneg (l : List Char) (q : Rat)
    (hch : ∀ c ∈ l, c ≠ '-' ∧ c ≠ '+') (h : pyFloat l = some q) : 0 ≤ q := by
  unfold pyFloat at h
  cases hp : parseFloatSym (pyStrip l) with
  | none => rw [hp] at h; exact Option.noConfusion h
  | some p =>
    rw [hp] at h
    injection h with h1
    have hm : 0 ≤ p.1 :=
      parseFloatSym_nonneg (pyStrip l) p.1 p.2
        (fun c hc => hch c (mem_pyStrip l c hc)) (by rw [hp])
    exact h1 ▸ decValue_nonneg p.1 p.2 hm

theorem normalize_euro_nonneg (s : String) (q : Rat)
    (hch : ∀ c ∈ s.toList, c ≠ '-' ∧ c ≠ '+')
    (h : normalize_euro s = some q) : 0 ≤ q := by
  unfold normalize_euro at h
  refine pyFloat_nonneg _ q ?_ h
  intro c hc
  rcases mem_euroCandidate _ c hc with hm | rfl
  · exact hch c hm
  · exact ⟨by decide, by decide⟩


theorem splitDigits_fst (l : List Char) : ∀ c ∈ (splitDigits l).1, isDigitCh c = true := by
  induction l with
  | nil => simp [splitDigits]
  | cons x xs ih =>
    intro c hc
    unfold splitDigits at hc
    split at hc
    · rename_i hx
      simp only [List.mem_cons] at hc
      rcases hc with rfl | hc
      · exact hx
      · exact ih c hc
    · simp at hc

theorem starGroups_fst (cs : List Char) :
    ∀ c ∈ (starGroups cs).1, isDigitCh c = true ∨ isSepCh c = true := by
  induction cs using starGroups.induct with
  | case1 s a b c rest hcond x r hx ih =>
    intro ch hch
    rw [starGroups] at hch
    rw [if_pos hcond] at hch
    simp only [hx, List.mem_cons] at hch
    obtain ⟨h1, h2, h3, h4⟩ := hcond
    rcases hch with rfl | rfl | rfl | rfl | hch
    · exact Or.inr h1
    · exact Or.inl h2
    · exact Or.inl h3
    · exact Or.inl h4
    · exact ih ch (by rw [hx]; exact hch)
  | case2 s a b c rest hcond =>
    intro ch hch
    rw [starGroups] at hch
    rw [if_neg hcond] at hch
    simp at hch
  | case3 t hshape =>
    intro ch hch
    cases t with
    | nil => simp [starGroups] at hch
    | cons x xs =>
      rcases xs with - | ⟨y, ys⟩
      · simp [starGroups] at hch
      · rcases ys with - | ⟨z, zs⟩
        · simp [starGroups] at hch
        · rcases zs with - | ⟨w, ws⟩
          · simp [starGroups] at hch
          · exact absurd rfl (hshape x y z w ws)


theorem optCents_fst (cs : List Char) :
    ∀ c ∈ (optCents cs).1, isDigitCh c = true ∨ isSepCh c = true := by
  unfold optCents
  split
  · rename_i s a b rest
    split
    · rename_i hcond
      intro c hc
      simp only [List.mem_cons] at hc
      rcases hc with rfl | rfl | rfl | hc
      · exact Or.inr hcond.1
      · exact Or.inl hcond.2.1
      · exact Or.inl hcond.2.2
      · simp at hc
    · simp
  · simp

theorem matchAmount_chars (cs : List Char) (g rest : List Char)
    (h : matchAmount cs = some (g, rest)) :
    ∀ c ∈ g, isDigitCh c = true ∨ isSepCh c = true := by
  unfold matchAmount at h
  rw [show splitDigits cs = ((splitDigits cs).1, (splitDigits cs).2) from rfl] at h
  simp only at h
  split at h
  · exact Option.noConfusion h
  · rw [show starGroups (List.drop 4 (splitDigits cs).1 ++ (splitDigits cs).2)
        = ((starGroups (List.drop 4 (splitDigits cs).1 ++ (splitDigits cs).2)).1,
           (starGroups (List.drop 4 (splitDigits cs).1 ++ (splitDigits cs).2)).2) from rfl] at h
    simp only at h
    rw [show optCents ((starGroups (List.drop 4 (splitDigits cs).1 ++ (splitDigits cs).2)).2)
        = ((optCents ((starGroups (List.drop 4 (splitDigits cs).1 ++ (splitDigits cs).2)).2)).1,
           (optCents ((starGroups (List.drop 4 (splitDigits cs).1 ++ (splitDigits cs).2)).2)).2)
        from rfl] at h
    simp only at h
    injection h with h1
    obtain ⟨h2, -⟩ := Prod.mk.injEq .. ▸ h1
    intro c hc
    rw [← h2] at hc
    rcases List.mem_append.mp hc with hc1 | hc2
    · rcases List.mem_append.mp hc1 with hc3 | hc4
      · exact Or.inl (splitDigits_fst cs c (List.mem_of_mem_take hc3))
      · exact starGroups_fst _ c hc4
    · exact optCents_fst _ c hc2

theorem matchPriceAt_chars (prev : Option Char) (cs : List Char) (g rest : List Char)
    (h : matchPriceAt prev cs = some (g, rest)) :
    ∀ c ∈ g, isDigitCh c = true ∨ isSepCh c = true := by
  unfold matchPriceAt at h
  split at h
  · exact Option.noConfusion h
  · exact matchAmount_chars _ g rest h

theorem priceScanAux_chars (fuel : Nat) :
    ∀ (prev : Option Char) (cs : List Char) (s : String),
      s ∈ priceScanAux fuel prev cs →
      ∀ c ∈ s.toList, isDigitCh c = true ∨ isSepCh c = true := by
  induction fuel with
  | zero => intro prev cs s hs; simp [priceScanAux] at hs
  | succ fuel ih =>
    intro prev cs s hs
    cases cs with
    | nil => simp [priceScanAux] at hs
    | cons c0 cs0 =>
      simp only [priceScanAux] at hs
      split at hs
      · rename_i g rest heq
        simp only [List.mem_cons] at hs
        rcases hs with rfl | hs
        · exact matchPriceAt_chars prev (c0 :: cs0) g rest heq
        · exact ih _ rest s hs
      · exact ih _ cs0 s hs

theorem priceFindAll_chars (t : String) (s : String) (hs : s ∈ priceFindAll t) :
    ∀ c ∈ s.toList, isDigitCh c = true ∨ isSepCh c = true :=
  priceScanAux_chars _ _ _ s hs

theorem priceSearch_of (t g : String) (h : priceSearch t = some g) : g ∈ priceFindAll t := by
  unfold priceSearch at h
  cases hl : priceFindAll t with
  | nil => rw [hl] at h; exact Option.noConfusion h
  | cons x xs =>
    rw [hl] at h
    injection h with h1
    exact h1 ▸ List.mem_cons_self x xs

theorem scan_chars_no_sign (s : String)
    (h : ∀ c ∈ s.toList, isDigitCh c = true ∨ isSepCh c = true) :
    ∀ c ∈ s.toList, c ≠ '-' ∧ c ≠ '+' := by
  intro c hc
  rcases h c hc with hd | hsep
  · exact ⟨(isDigitCh_props c hd).2.2.2.2.1, (isDigitCh_props c hd).2.2.2.2.2⟩
  · rcases (by simpa [isSepCh] using hsep : c = '.' ∨ c = ',') with rfl | rfl
    · exact ⟨by decide, by decide⟩
    · exact ⟨by decide, by decide⟩

theorem selectorScan_price (sels : List String) (hits : List (Option String))
    (p : Option Rat) (m : String) (h : selectorScan sels hits = some (p, m)) :
    ∃ g : String, p = normalize_euro g ∧
      ∀ c ∈ g.toList, isDigitCh c = true ∨ isSepCh c = true := by
  induction sels generalizing hits with
  | nil => exact absurd h (by simp [selectorScan])
  | cons sel sels ih =>
    simp only [selectorScan] at h
    split at h
    · rename_i rawValue heq
      split at h
      · rename_i g hg
        injection h with h1
        obtain ⟨h2, -⟩ := Prod.mk.injEq .. ▸ h1
        refine ⟨g, h2.symm, ?_⟩
        exact priceFindAll_chars _ g (priceSearch_of _ g hg)
      · exact ih hits.tail h
    · exact ih hits.tail h

theorem fallbackMedian_nonneg (l : List Rat) (h : ∀ x ∈ l, 0 ≤ x) :
    0 ≤ fallbackMedian l := by
  unfold fallbackMedian
  rw [List.getD_eq_getD_get?]
  cases hg : (sortRats l).get? (l.length / 2) with
  | none => simp
  | some x =>
    simp only [Option.getD_some]
    exact h x ((List.perm_insertionSort _ l).mem_iff.mp (List.get?_mem hg))


theorem selector_tag_nonempty (sel : String) : "selector:" ++ sel ≠ "" := by
  intro hh
  have h1 := congrArg String.length hh
  rw [String.length_append] at h1
  rw [show String.length "selector:" = 9 from rfl, show String.length "" = 0 from rfl] at h1
  omega

theorem extract_price_tag_nonempty (c : Content) : (extract_price c).method ≠ "" := by
  unfold extract_price
  cases hs : scriptsScan c.scripts with
  | some r =>
    rcases r with ⟨v, cur, m⟩
    rcases scriptsScan_tag _ _ hs with h | h <;> simp only at h
    · subst h
      exact (by decide : ("jsonld" : String) ≠ "")
    · subst h
      exact (by decide : ("jsonld-root" : String) ≠ "")
  | none =>
    cases hsel : selectorScan META_HINTS c.selectorHits with
    | some pm =>
      rcases pm with ⟨p, m⟩
      obtain ⟨sel, -, rfl⟩ := selectorScan_tag _ _ p m hsel
      exact selector_tag_nonempty sel
    | none =>
      simp only
      split
      · exact (by decide : ("none" : String) ≠ "")
      · exact (by decide : ("text-fallback" : String) ≠ "")

theorem extract_price_nonneg (c : Content) (hns : scriptsScan c.scripts = none)
    (q : Rat) (hq : (extract_price c).price = some q) : 0 ≤ q := by
  unfold extract_price at hq
  rw [hns] at hq
  cases hsel : selectorScan META_HINTS c.selectorHits with
  | some pm =>
    rcases pm with ⟨p, m⟩
    rw [hsel] at hq
    simp only at hq
    obtain ⟨g, hp, hg⟩ := selectorScan_price _ _ p m hsel
    rw [hp] at hq
    exact normalize_euro_nonneg g q (scan_chars_no_sign g hg) hq
  | none =>
    rw [hsel] at hq
    simp only at hq
    split at hq
    · exact Option.noConfusion hq
    · injection hq with h1
      refine h1 ▸ fallbackMedian_nonneg _ ?_
      intro x hx
      obtain ⟨g, hgmem, hgx⟩ := List.mem_filterMap.mp hx
      exact normalize_euro_nonneg g x
        (scan_chars_no_sign g (priceFindAll_chars _ g hgmem)) hgx


/-- C1 counterexample: with no structured data, a selector hit whose raw
value matches `PRICE_RE` but fails normalization ("€1.234,567,89") makes
`extract_price` return a NULL price tagged `selector:<first hint>` — it does
not fall through to the text fallback even though the page text holds a
definite value, so the result is not "the first strategy that yields a
definite (non-null) value". -/
theorem c1_selector_null_short_circuit :
    (extract_price ⟨[], [some "€1.234,567,89"], "€ 10,00"⟩).price = none ∧
    (extract_price ⟨[], [some "€1.234,567,89"], "€ 10,00"⟩).method
      = "selector:meta[property=\"product:price:amount\"]" ∧
    ((priceFindAll "€ 10,00").filterMap normalize_euro).isEmpty = false := by
  refine ⟨?_, ?_, ?_⟩ <;> decide

/-- C1 (amended): the strategies run in strict order with their tags — the
structured-data scan decides first whenever it yields a value (tag "jsonld"
or "jsonld-root"), so a structured-data price always beats a conflicting
selector price; otherwise the selector list decides at its FIRST regex
match, returning that match's normalized value even when normalization
fails (a null price tagged `selector:<which>`); otherwise the text fallback
returns the median candidate with tag "text-fallback" when any exists, and
otherwise the null result is tagged "none". -/
theorem c1_strategy_order :
    (∀ (c : Content) (v : Rat) (cur : JVal) (m : String),
      scriptsScan c.scripts = some (v, cur, m) →
      extract_price c = ⟨some v, cur, m⟩ ∧ (m = "jsonld" ∨ m = "jsonld-root")) ∧
    (∀ (c : Content) (p : Option Rat) (m : String),
      scriptsScan c.scripts = none →
      selectorScan META_HINTS c.selectorHits = some (p, m) →
      extract_price c = ⟨p, JVal.str "EUR", m⟩ ∧ ∃ sel ∈ META_HINTS, m = "selector:" ++ sel) ∧
    (∀ c : Content,
      scriptsScan c.scripts = none →
      selectorScan META_HINTS c.selectorHits = none →
      ((priceFindAll c.text).filterMap normalize_euro ≠ [] →
        extract_price c = ⟨some (fallbackMedian ((priceFindAll c.text).filterMap normalize_euro)),
          JVal.str "EUR", "text-fallback"⟩) ∧
      ((priceFindAll c.text).filterMap normalize_euro = [] →
        extract_price c = ⟨none, JVal.str "EUR", "none"⟩)) ∧
    (extract_price ⟨[some (JVal.obj [("offers", JVal.obj [("price", JVal.int 50)])])],
        [some "€ 99,99"], ""⟩).price = some 50 ∧
    (extract_price ⟨[some (JVal.obj [("offers", JVal.obj [("price", JVal.int 50)])])],
        [some "€ 99,99"], ""⟩).method = "jsonld" := by
  have hconflict : scriptsScan [some (JVal.obj [("offers", JVal.obj [("price", JVal.int 50)])])]
      = some (50, JVal.str "EUR", "jsonld") := by
    have hp : parseFloatSym (pyStrip (euroCandidate (pyStr (JVal.int 50)).toList))
        = some (50, 0) := by decide
    have h1 : as_eur (JVal.int 50) = some 50 := by
      simp only [as_eur, try_float, pyFloat, hp]
      norm_num [decValue, isPyInt]
    have hof : jGetD [("offers", JVal.obj [("price", JVal.int 50)])] "offers"
        = JVal.obj [("price", JVal.int 50)] := rfl
    have hpr : jGetD [("price", JVal.int 50)] "price" = JVal.int 50 := rfl
    have hcu : jGetD [("price", JVal.int 50)] "priceCurrency" = JVal.null := rfl
    have htr : jTruthy (JVal.int 50) = true := rfl
    have htr2 : jTruthy JVal.null = false := rfl
    simp [scriptsScan, jItems, itemsScan, objCheck, offersProbe, hof, hpr, hcu, htr, htr2, h1]
  refine ⟨?_, ?_, ?_, ?_, ?_⟩
  · intro c v cur m h
    refine ⟨?_, ?_⟩
    · unfold extract_price
      rw [h]
    · have := scriptsScan_tag c.scripts (v, cur, m) h
      simpa using this
  · intro c p m h1 h2
    refine ⟨?_, selectorScan_tag _ _ p m h2⟩
    unfold extract_price
    rw [h1, h2]
  · intro c h1 h2
    constructor
    · intro hne
      unfold extract_price
      rw [h1, h2]
      simp only
      rw [if_neg (by simpa using hne)]
    · intro heq
      unfold extract_price
      rw [h1, h2]
      simp only
      rw [if_pos (by simpa using heq)]
  · simp only [extract_price, hconflict]
  · simp only [extract_price, hconflict]

/-- C1 witness: the structured-priority and selector clauses applied at
concrete contents. -/
theorem c1_strategy_order_witness :
    extract_price ⟨[some (JVal.obj [("offers", JVal.obj [("price", JVal.int 50)])])],
        [some "€ 99,99"], ""⟩
      = ⟨some 50, JVal.str "EUR", "jsonld"⟩ ∧
    extract_price ⟨[], [], ""⟩ = ⟨none, JVal.str "EUR", "none"⟩ := by
  constructor
  · have hp : parseFloatSym (pyStrip (euroCandidate (pyStr (JVal.int 50)).toList))
        = some (50, 0) := by decide
    have h1 : as_eur (JVal.int 50) = some 50 := by
      simp only [as_eur, try_float, pyFloat, hp]
      norm_num [decValue, isPyInt]
    have hof : jGetD [("offers", JVal.obj [("price", JVal.int 50)])] "offers"
        = JVal.obj [("price", JVal.int 50)] := rfl
    have hpr : jGetD [("price", JVal.int 50)] "price" = JVal.int 50 := rfl
    have hcu : jGetD [("price", JVal.int 50)] "priceCurrency" = JVal.null := rfl
    have htr : jTruthy (JVal.int 50) = true := rfl
    have htr2 : jTruthy JVal.null = false := rfl
    have hconflict : scriptsScan [some (JVal.obj [("offers", JVal.obj [("price", JVal.int 50)])])]
        = some (50, JVal.str "EUR", "jsonld") := by
      simp [scriptsScan, jItems, itemsScan, objCheck, offersProbe, hof, hpr, hcu, htr, htr2, h1]
    exact (c1_strategy_order.1 ⟨[some (JVal.obj [("offers", JVal.obj [("price", JVal.int 50)])])],
      [some "€ 99,99"], ""⟩ 50 (JVal.str "EUR") "jsonld" hconflict).1
  · exact (c1_strategy_order.2.2.1 ⟨[], [], ""⟩ rfl rfl).2 (by decide)

/-- C6: when the first two strategies yield nothing and the text holds at
least one currency-prefixed match, the extractor returns the element at
position `len//2` of the sorted normalized candidates — a sorted
permutation of the candidate multiset, i.e. its median — with tag
"text-fallback"; the candidate set {10, 20, 1000} yields 20, not an
extreme. -/
theorem c6_text_fallback_median :
    (∀ c : Content,
      scriptsScan c.scripts = none →
      selectorScan META_HINTS c.selectorHits = none →
      (priceFindAll c.text).filterMap normalize_euro ≠ [] →
      extract_price c = ⟨some (fallbackMedian ((priceFindAll c.text).filterMap normalize_euro)),
        JVal.str "EUR", "text-fallback"⟩) ∧
    (∀ l : List Rat, (sortRats l).Perm l ∧ List.Sorted (· ≤ ·) (sortRats l)) ∧
    fallbackMedian [10, 20, 1000] = 20 ∧
    (extract_price ⟨[], [], "€ 10,00 noise € 1.000,00 more € 20,00"⟩).price = some 20 ∧
    (extract_price ⟨[], [], "€ 10,00 noise € 1.000,00 more € 20,00"⟩).method
      = "text-fallback" := by
  have hmain : ∀ c : Content,
      scriptsScan c.scripts = none →
      selectorScan META_HINTS c.selectorHits = none →
      (priceFindAll c.text).filterMap normalize_euro ≠ [] →
      extract_price c = ⟨some (fallbackMedian ((priceFindAll c.text).filterMap normalize_euro)),
        JVal.str "EUR", "text-fallback"⟩ := by
    intro c h1 h2 hne
    unfold extract_price
    rw [h1, h2]
    simp only
    rw [if_neg (by simpa using hne)]
  have hfa : priceFindAll "€ 10,00 noise € 1.000,00 more € 20,00"
      = ["10,00", "1.000,00", "20,00"] := by decide
  have hn1 : normalize_euro "10,00" = some 10 := by
    have hp : parseFloatSym (pyStrip (euroCandidate "10,00".toList)) = some (1000, 2) := by
      decide
    simp only [normalize_euro, pyFloat, hp]
    norm_num [decValue]
  have hn2 : normalize_euro "1.000,00" = some 1000 := by
    have hp : parseFloatSym (pyStrip (euroCandidate "1.000,00".toList)) = some (100000, 2) := by
      decide
    simp only [normalize_euro, pyFloat, hp]
    norm_num [decValue]
  have hn3 : normalize_euro "20,00" = some 20 := by
    have hp : parseFloatSym (pyStrip (euroCandidate "20,00".toList)) = some (2000, 2) := by
      decide
    simp only [normalize_euro, pyFloat, hp]
    norm_num [decValue]
  have hc : (priceFindAll "€ 10,00 noise € 1.000,00 more € 20,00").filterMap normalize_euro
      = [10, 1000, 20] := by
    rw [hfa]
    simp [List.filterMap_cons, hn1, hn2, hn3]
  have hmed : fallbackMedian [(10 : Rat), 1000, 20] = 20 := by
    norm_num [fallbackMedian, sortRats, List.insertionSort, List.orderedInsert, List.getD]
  have hext := hmain ⟨[], [], "€ 10,00 noise € 1.000,00 more € 20,00"⟩ rfl rfl
    (by rw [hc]; exact (by simp))
  rw [hc, hmed] at hext
  refine ⟨hmain, ?_, ?_, ?_, ?_⟩
  · intro l
    exact ⟨List.perm_insertionSort _ l, List.sorted_insertionSort _ l⟩
  · norm_num [fallbackMedian, sortRats, List.insertionSort, List.orderedInsert, List.getD]
  · rw [hext]
  · rw [hext]

/-- C6 witness: the fallback clause applied at the concrete noisy page,
returning the median 20. -/
theorem c6_text_fallback_median_witness :
    extract_price ⟨[], [], "€ 10,00 € 1.000,00 € 20,00"⟩
      = ⟨some (fallbackMedian ((priceFindAll "€ 10,00 € 1.000,00 € 20,00").filterMap
          normalize_euro)), JVal.str "EUR", "text-fallback"⟩ :=
  c6_text_fallback_median.1 ⟨[], [], "€ 10,00 € 1.000,00 € 20,00"⟩ rfl rfl (by decide)

/-- C7 counterexample: a structured-data block with price -5 makes the
extractor return the negative price -5 (method "jsonld-root"), violating
the claimed non-negativity of every extracted price. -/
theorem c7_negative_structured_price :
    (extract_price ⟨[some (JVal.obj [("price", JVal.int (-5))])], [], ""⟩).price
      = some (-5) ∧
    (extract_price ⟨[some (JVal.obj [("price", JVal.int (-5))])], [], ""⟩).method
      = "jsonld-root" ∧
    ((-5 : Rat) < 0) := by
  have hp : parseFloatSym (pyStrip (euroCandidate (pyStr (JVal.int (-5))).toList))
      = some (-5, 0) := by decide
  have h1 : as_eur (JVal.int (-5)) = some (-5) := by
    simp only [as_eur, try_float, pyFloat, hp]
    norm_num [decValue, isPyInt]
  have hof : jGetD [("price", JVal.int (-5))] "offers" = JVal.null := rfl
  have hhas : jHas [("price", JVal.int (-5))] "price" = true := rfl
  have hget : jGetD [("price", JVal.int (-5))] "price" = JVal.int (-5) := rfl
  have hscan : scriptsScan [some (JVal.obj [("price", JVal.int (-5))])]
      = some (-5, jGetDefault [("price", JVal.int (-5))] "priceCurrency" (JVal.str "EUR"),
          "jsonld-root") := by
    simp only [scriptsScan, jItems, itemsScan, objCheck, offersProbe, rootProbe,
      hof, hhas, hget, h1, if_true]
  refine ⟨?_, ?_, by norm_num⟩ <;> simp only [extract_price, hscan]

/-- C7 (amended): the method tag is a non-empty string on every return
path; the price is null or a finite rational, and it is non-negative
whenever the structured-data strategy did not produce it — structured-data
values pass through sign-unchecked and may be negative. -/
theorem c7_extraction_invariant :
    (∀ c : Content, (extract_price c).method ≠ "") ∧
    (∀ (c : Content) (q : Rat), scriptsScan c.scripts = none →
      (extract_price c).price = some q → 0 ≤ q) :=
  ⟨extract_price_tag_nonempty, fun c q hns hq => extract_price_nonneg c hns q hq⟩

/-- C7 witness: the invariant applied at a concrete text-fallback page
whose extracted price is 19.99. -/
theorem c7_extraction_invariant_witness :
    (extract_price ⟨[], [], "€ 19,99"⟩).method ≠ "" ∧ (0 : Rat) ≤ 1999 / 100 := by
  constructor
  · exact c7_extraction_invariant.1 ⟨[], [], "€ 19,99"⟩
  · refine c7_extraction_invariant.2 ⟨[], [], "€ 19,99"⟩ (1999 / 100) rfl ?_
    have hfa : priceFindAll "€ 19,99" = ["19,99"] := by decide
    have hn : normalize_euro "19,99" = some (1999 / 100) := by
      have hp : parseFloatSym (pyStrip (euroCandidate "19,99".toList)) = some (1999, 2) := by
        decide
      simp only [normalize_euro, pyFloat, hp]
      norm_num [decValue]
    have hc : (priceFindAll "€ 19,99").filterMap normalize_euro = [(1999 : Rat) / 100] := by
      rw [hfa]
      simp [List.filterMap_cons, hn]
    have hsel : selectorScan META_HINTS ([] : List (Option String)) = none := rfl
    simp only [extract_price, scriptsScan, hsel, hc]
    norm_num [fallbackMedian, sortRats, List.insertionSort, List.orderedInsert, List.getD]

end PriceTracker
